import Mathlib

/-!
Formal model of the waveform-synthesis module of pulse2percept
(file pulse2percept/stimuli.py): monophasic and biphasic pulse builders,
the pulse-train synthesizer, the stimulus parser, and the
image-to-pulse-train magnitude pipeline.  Durations and amplitudes are
modelled as rationals; numpy arrays as lists of rationals; numpy and
Python exceptions as Except String.
-/

set_option allowUnsafeReducibility true in
attribute [semireducible] Rat.mul Rat.inv Rat.add Rat.sub

namespace Stimuli

instance exceptDecEq {ε α : Type} [DecidableEq ε] [DecidableEq α] :
    DecidableEq (Except ε α) := fun x y =>
  match x, y with
  | .error a, .error b =>
    if h : a = b then .isTrue (by rw [h])
    else .isFalse (by intro hc; cases hc; exact h rfl)
  | .error _, .ok _ => .isFalse (by intro hc; cases hc)
  | .ok _, .error _ => .isFalse (by intro hc; cases hc)
  | .ok a, .ok b =>
    if h : a = b then .isTrue (by rw [h])
    else .isFalse (by intro hc; cases hc; exact h rfl)

/-- Absolute value on the rationals, written so that it reduces in the
kernel. -/
def ratAbs (x : ℚ) : ℚ := if x < 0 then -x else x

/-- Ceiling on the rationals via the computable Rat.floor. -/
def ceilQ (q : ℚ) : ℤ := -(Rat.floor (-q))

/-- Rounding half to even, the tie-breaking rule of numpy.round and of
the Python built-in round, both of which the source uses to convert
seconds-valued durations into sample counts. -/
def roundHE (q : ℚ) : ℤ :=
  if q - (Rat.floor q : ℚ) < 1 / 2 then Rat.floor q
  else if (1 : ℚ) / 2 < q - (Rat.floor q : ℚ) then Rat.floor q + 1
  else if 2 ∣ Rat.floor q then Rat.floor q else Rat.floor q + 1

/-- Model of int(np.round(d / tsample)), the duration-to-samples
conversion used throughout the source. -/
def nsamp (d tsample : ℚ) : ℤ := roundHE (d / tsample)

/-- Model of np.zeros(n): numpy raises ValueError on a negative size. -/
def npZeros (n : ℤ) : Except String (List ℚ) :=
  if n < 0 then .error "negative dimensions are not allowed"
  else .ok (List.replicate n.toNat 0)

/-- Model of np.ones(n): numpy raises ValueError on a negative size. -/
def npOnes (n : ℤ) : Except String (List ℚ) :=
  if n < 0 then .error "negative dimensions are not allowed"
  else .ok (List.replicate n.toNat 1)

/-- Model of the Python slice a[:k], which for a negative k drops
elements from the end instead of raising. -/
def pySlice (l : List ℚ) (k : ℤ) : List ℚ :=
  if k < 0 then l.take (l.length - (-k).toNat) else l.take k.toNat

/-- Model of MonophasicPulse.__init__ (stimuli.py lines 16-59).  The
returned list is the data attribute of the constructed TimeSeries.
stimDur is None when the caller omits stim_dur, in which case it
defaults to pdur + delay_dur.  Note the source appends np.zeros of the
full stim size as trailing padding and then truncates with
pulse[:stim_size]. -/
def MonophasicPulse (ptype : String) (pdur tsample delay_dur : ℚ)
    (stimDur : Option ℚ) : Except String (List ℚ) :=
  if tsample ≤ 0 then .error "tsample must be a non-negative float."
  else
    let stim_dur := stimDur.getD (pdur + delay_dur)
    let pulse_size := nsamp pdur tsample
    let delay_size := nsamp delay_dur tsample
    let stim_size := nsamp stim_dur tsample
    match
      (if ptype = "cathodic" then (npOnes pulse_size).map (List.map (fun x => -x))
       else if ptype = "anodic" then npOnes pulse_size
       else .error "Acceptable values for ptype are anodic, cathodic."),
      npZeros delay_size, npZeros stim_size with
    | .error e, _, _ => .error e
    | .ok _, .error e, _ => .error e
    | .ok _, .ok _, .error e => .error e
    | .ok pulse, .ok dz, .ok sz => .ok (pySlice (dz ++ pulse ++ sz) stim_size)

/-- Model of BiphasicPulse.__init__ (stimuli.py lines 62-104): an
anodic and a cathodic MonophasicPulse of equal phase duration,
concatenated around an interphase gap in the requested order. -/
def BiphasicPulse (ptype : String) (pdur tsample interphase_dur : ℚ) :
    Except String (List ℚ) :=
  if tsample ≤ 0 then .error "tsample must be a non-negative float."
  else
    match MonophasicPulse "anodic" pdur tsample 0 (some pdur),
          MonophasicPulse "cathodic" pdur tsample 0 (some pdur),
          npZeros (nsamp interphase_dur tsample) with
    | .error e, _, _ => .error e
    | .ok _, .error e, _ => .error e
    | .ok _, .ok _, .error e => .error e
    | .ok onP, .ok offP, .ok gap =>
      if ptype = "cathodicfirst" then .ok (offP ++ gap ++ onP)
      else if ptype = "anodicfirst" then .ok (onP ++ gap ++ offP)
      else .error "Acceptable values for type are anodicfirst or cathodicfirst"

/-- Model of np.isclose(x, 0) with the numpy defaults rtol=1e-5 and
atol=1e-8: against zero the test reduces to abs x <= 1e-8. -/
def npIsCloseZero (x : ℚ) : Prop := ratAbs x ≤ 1 / 100000000

instance (x : ℚ) : Decidable (npIsCloseZero x) :=
  inferInstanceAs (Decidable (ratAbs x ≤ 1 / 100000000))

/-- One iteration body of the pulse-train assembly loop of
PulseTrain.__init__ (stimuli.py lines 383-392): the envelope appended
per period, or the error for an unrecognized pulseorder token. -/
def envelopeOf (pulseorder : String) (delayL pulse gapL : List ℚ) :
    Except String (List ℚ) :=
  if pulseorder = "pulsefirst" then .ok (delayL ++ pulse ++ gapL)
  else if pulseorder = "gapfirst" then .ok (delayL ++ gapL ++ pulse)
  else .error "Acceptable values for pulseorder are pulsefirst or gapfirst"

/-- The pulse-train assembly loop: n envelopes concatenated in
iteration order, starting from the empty array. -/
def buildTrain (n : Nat) (pulseorder : String) (delayL pulse gapL : List ℚ) :
    Except String (List ℚ) :=
  match n with
  | 0 => .ok []
  | m + 1 =>
    match buildTrain m pulseorder delayL pulse gapL with
    | .error e => .error e
    | .ok rest =>
      match envelopeOf pulseorder delayL pulse gapL with
      | .error e => .error e
      | .ok env => .ok (rest ++ env)

/-- Model of PulseTrain.__init__ (stimuli.py lines 311-404).  The
returned list is the data attribute of the constructed TimeSeries. -/
def PulseTrain (tsample freq amp dur delay pulse_dur interphase_dur : ℚ)
    (pulsetype pulseorder : String) : Except String (List ℚ) :=
  if tsample ≤ 0 then .error "tsample must be a non-negative float."
  else
    let stim_size := nsamp dur tsample
    if npIsCloseZero freq ∨ npIsCloseZero amp then npZeros stim_size
    else
      let envelope_size := nsamp (1 / freq) tsample
      let delay_size := nsamp delay tsample
      if delay_size < 0 then .error "Delay cannot be negative."
      else
        match BiphasicPulse pulsetype pulse_dur tsample interphase_dur with
        | .error e => .error e
        | .ok bip =>
          let pulse := bip.map (fun x => amp * x)
          if (pulse.length : ℤ) < 0 then
            .error "Single pulse must fit within 1/freq interval."
          else
            let gap_size := envelope_size - (delay_size + (pulse.length : ℤ))
            if gap_size < 0 then
              .error "Pulse and delay must fit within 1/freq interval."
            else
              let delayL := List.replicate delay_size.toNat (0 : ℚ)
              let gapL := List.replicate gap_size.toNat (0 : ℚ)
              match buildTrain (ceilQ (dur * freq)).toNat pulseorder delayL
                  pulse gapL with
              | .error e => .error e
              | .ok tr =>
                let padded :=
                  if (tr.length : ℤ) < stim_size then
                    tr ++ List.replicate (stim_size - (tr.length : ℤ)).toNat (0 : ℚ)
                  else tr
                .ok (pySlice padded stim_size)

/-- The TimeSeries container: a sampling step and a data array. -/
structure TimeSeries where
  tsample : ℚ
  data : List ℚ
deriving DecidableEq

/-- A heap of TimeSeries objects; a reference is an index into objs.
This makes Python object identity (aliasing between list entries)
observable in the model. -/
structure Store where
  objs : List TimeSeries
deriving DecidableEq

/-- Allocate a fresh object, returning the new store and its reference. -/
def Store.alloc (s : Store) (t : TimeSeries) : Store × Nat :=
  (⟨s.objs ++ [t]⟩, s.objs.length)

/-- Dereference; out-of-range references read a dummy object. -/
def Store.get (s : Store) (r : Nat) : TimeSeries :=
  s.objs.getD r ⟨0, []⟩

/-- In-place mutation of the object behind a reference, as Python code
mutating a held TimeSeries would. -/
def Store.put (s : Store) (r : Nat) (t : TimeSeries) : Store :=
  ⟨s.objs.set r t⟩

/-- The electrode array collaborator: an ordered list of electrode
names.  num_electrodes and get_index mirror the interface that
parse_pulse_trains uses. -/
structure ElectrodeArray where
  names : List String
deriving DecidableEq

def ElectrodeArray.num_electrodes (a : ElectrodeArray) : Nat :=
  a.names.length

/-- Name lookup: index of the electrode with the given name, if any. -/
def ElectrodeArray.get_index (a : ElectrodeArray) (name : String) :
    Option Nat :=
  a.names.findIdx? (fun n => n = name)

/-- The three stimulus shapes accepted by parse_pulse_trains: a single
TimeSeries, a list of TimeSeries, or a name-to-TimeSeries dict (a list
of entries in insertion order).  TimeSeries values are references into
a store. -/
inductive Stim where
  | single (r : Nat)
  | listOf (rs : List Nat)
  | dictOf (entries : List (String × Nat))

/-- The dict-branch loop of parse_pulse_trains (stimuli.py lines
452-458): each named entry is deep-copied into the slot returned by
the name lookup; an unknown name raises. -/
def parseDictLoop (implant : ElectrodeArray)
    (entries : List (String × Nat)) (pt : List Nat) (s : Store) :
    Except String (List Nat × Store) :=
  match entries with
  | [] => .ok (pt, s)
  | (key, r) :: rest =>
    match implant.get_index key with
    | some idx =>
      parseDictLoop implant rest (pt.set idx (s.alloc (s.get r)).2)
        (s.alloc (s.get r)).1
    | none => .error ("Could not find electrode with name " ++ key)

/-- Deep copy of a list of TimeSeries references: a fresh object per
entry, as copy.deepcopy applied to a Python list of TimeSeries. -/
def deepcopyList (s : Store) (rs : List Nat) : List Nat × Store :=
  match rs with
  | [] => ([], s)
  | r :: rest =>
    let a := s.alloc (s.get r)
    let tail := deepcopyList a.1 rest
    (a.2 :: tail.1, tail.2)

/-- Model of parse_pulse_trains (stimuli.py lines 407-466), returning
the list of per-electrode references together with the final store. -/
def parse_pulse_trains (stim : Stim) (implant : ElectrodeArray)
    (s : Store) : Except String (List Nat × Store) :=
  match stim with
  | .single r =>
    if implant.num_electrodes > 1 then
      .error "More than 1 electrode given, use a list of pulse trains"
    else
      .ok ([(s.alloc (s.get r)).2], (s.alloc (s.get r)).1)
  | .dictOf entries =>
    match entries with
    | [] => .error "IndexError: list index out of range"
    | (_, r0) :: _ =>
      let ptZero : TimeSeries :=
        ⟨(s.get r0).tsample, List.replicate (s.get r0).data.length 0⟩
      let a := s.alloc ptZero
      parseDictLoop implant entries
        (List.replicate implant.num_electrodes a.2) a.1
  | .listOf rs =>
    if rs.length ≠ implant.num_electrodes then
      .error "Number of pulse trains must match number of electrodes"
    else
      .ok (deepcopyList s rs)

/-- Per-electrode magnitude of image2pulsetrain (stimuli.py lines
226-230): the receptive-field-weighted average of image intensity,
with the receptive-field weight grids supplied by the external
electrode collaborator and both grids flattened. -/
def electrodeMagnitudes (rfs : List (List ℚ)) (img : List ℚ) : List ℚ :=
  rfs.map (fun rf => (List.zipWith (fun a b => a * b) rf img).sum / rf.sum)

/-- Model of ndarray.min() on a nonempty array (0 on empty input,
where numpy would raise instead; callers below have nonempty input). -/
def npMin : List ℚ → ℚ
  | [] => 0
  | x :: xs => xs.foldl min x

/-- Model of ndarray.max(); see npMin. -/
def npMax : List ℚ → ℚ
  | [] => 0
  | x :: xs => xs.foldl max x

/-- The contrast-maximization step (stimuli.py lines 232-235): min-max
normalization, applied only when the flag is set and the magnitudes
are non-constant. -/
def normalizeContrast (max_contrast : Bool) (magn : List ℚ) : List ℚ :=
  if max_contrast = true ∧ npMin magn < npMax magn then
    magn.map (fun m => (m - npMin magn) / (npMax magn - npMin magn))
  else magn

/-- The rescaling to the target value range (stimuli.py line 238):
magn * np.diff(valrange) + valrange[0]. -/
def scaleToRange (lo hi : ℚ) (magn : List ℚ) : List ℚ :=
  magn.map (fun m => m * (hi - lo) + lo)

/-- The per-electrode pulse-train construction loop of
image2pulsetrain: build each waveform in order, aborting on the first
failure as a raised Python exception would. -/
def mapExcept (f : ℚ → Except String (List ℚ)) :
    List ℚ → Except String (List (List ℚ))
  | [] => .ok []
  | m :: rest =>
    match f m with
    | .error e => .error e
    | .ok w =>
      match mapExcept f rest with
      | .error e => .error e
      | .ok ws => .ok (w :: ws)

/-- Model of the magnitude-to-pulse-train dispatch of image2pulsetrain
(stimuli.py lines 240-262): one PulseHelper call per electrode, with
the magnitude fed to amplitude or frequency per the coding mode; the
first failure aborts the whole call, as a raised Python exception
would. -/
def image2pulsetrain (rfs : List (List ℚ)) (img : List ℚ)
    (coding : String) (lo hi : ℚ) (max_contrast : Bool)
    (const_amp const_freq tsample dur pulsedur interphasedur : ℚ)
    (pulsetype : String) : Except String (List (List ℚ)) :=
  let magn :=
    scaleToRange lo hi (normalizeContrast max_contrast
      (electrodeMagnitudes rfs img))
  mapExcept (fun m =>
    if coding = "amplitude" then
      PulseTrain tsample const_freq m dur 0 pulsedur interphasedur
        pulsetype "pulsefirst"
    else if coding = "frequency" then
      PulseTrain tsample m const_amp dur 0 pulsedur interphasedur
        pulsetype "pulsefirst"
    else .error "Acceptable values for coding are amplitude or frequency.") magn

/-! Helper lemmas. -/

theorem ratFloor_eq_intFloor (q : ℚ) : Rat.floor q = ⌊q⌋ := by
  rw [Rat.floor_def', Rat.floor_def]

theorem roundHE_nonneg {q : ℚ} (hq : 0 ≤ q) : 0 ≤ roundHE q := by
  have hf : (0 : ℤ) ≤ Rat.floor q := by
    rw [ratFloor_eq_intFloor]
    exact Int.floor_nonneg.mpr hq
  unfold roundHE
  split
  · exact hf
  · split
    · omega
    · split <;> omega

theorem nsamp_nonneg {d t : ℚ} (hd : 0 ≤ d) (ht : 0 < t) : 0 ≤ nsamp d t :=
  roundHE_nonneg (div_nonneg hd ht.le)

theorem roundHE_zero : roundHE 0 = 0 := by
  have h0 : Rat.floor (0 : ℚ) = 0 := by
    rw [ratFloor_eq_intFloor]; exact Int.floor_zero
  unfold roundHE
  rw [h0]
  norm_num

theorem nsamp_zero (t : ℚ) : nsamp 0 t = 0 := by
  unfold nsamp
  rw [zero_div]
  exact roundHE_zero

theorem npZeros_ok {n : ℤ} {l : List ℚ} (h : npZeros n = .ok l) :
    0 ≤ n ∧ l = List.replicate n.toNat 0 := by
  unfold npZeros at h
  split at h
  · cases h
  · exact ⟨by omega, by injection h with h; exact h.symm⟩

theorem npOnes_ok {n : ℤ} {l : List ℚ} (h : npOnes n = .ok l) :
    0 ≤ n ∧ l = List.replicate n.toNat 1 := by
  unfold npOnes at h
  split at h
  · cases h
  · exact ⟨by omega, by injection h with h; exact h.symm⟩

/-- Full characterization of a successful MonophasicPulse construction:
the sampling step was positive, the polarity token was recognized, all
three sample counts were nonnegative, and the data is the concatenated
buffer truncated to the stimulus size. -/
theorem monophasic_ok {ptype : String} {pdur tsample delay_dur : ℚ}
    {stimDur : Option ℚ} {l : List ℚ}
    (h : MonophasicPulse ptype pdur tsample delay_dur stimDur = .ok l) :
    ¬ tsample ≤ 0 ∧ (ptype = "cathodic" ∨ ptype = "anodic") ∧
    0 ≤ nsamp pdur tsample ∧ 0 ≤ nsamp delay_dur tsample ∧
    0 ≤ nsamp (stimDur.getD (pdur + delay_dur)) tsample ∧
    l = (List.replicate (nsamp delay_dur tsample).toNat 0 ++
         (if ptype = "anodic"
          then List.replicate (nsamp pdur tsample).toNat (1 : ℚ)
          else List.replicate (nsamp pdur tsample).toNat (-1 : ℚ)) ++
         List.replicate (nsamp (stimDur.getD (pdur + delay_dur)) tsample).toNat 0).take
        (nsamp (stimDur.getD (pdur + delay_dur)) tsample).toNat := by
  unfold MonophasicPulse at h
  split at h
  · cases h
  rename_i hts
  dsimp only [] at h
  refine ⟨hts, ?_⟩
  by_cases hcat : ptype = "cathodic"
  · rw [if_pos hcat] at h
    cases hones : npOnes (nsamp pdur tsample) with
    | error e => rw [hones] at h; simp only [Except.map] at h; cases h
    | ok p1 =>
      rw [hones] at h
      simp only [Except.map] at h
      split at h
      · cases h
      · cases h
      · cases h
      rename_i pulse dz sz hpulse hdz hsz
      obtain ⟨hpn, hp1⟩ := npOnes_ok hones
      obtain ⟨hdn, hdz2⟩ := npZeros_ok hdz
      obtain ⟨hsn, hsz2⟩ := npZeros_ok hsz
      injection hpulse with hpulse
      injection h with h
      subst hdz2 hsz2 hp1
      refine ⟨Or.inl hcat, hpn, hdn, hsn, ?_⟩
      have hne : ptype ≠ "anodic" := by rw [hcat]; decide
      rw [if_neg hne, ← h, ← hpulse, List.map_replicate]
      simp only [pySlice, if_neg (not_lt.mpr hsn)]
  · rw [if_neg hcat] at h
    by_cases hano : ptype = "anodic"
    · rw [if_pos hano] at h
      split at h
      · cases h
      · cases h
      · cases h
      rename_i pulse dz sz hpulse hdz hsz
      obtain ⟨hpn, hp1⟩ := npOnes_ok hpulse
      obtain ⟨hdn, hdz2⟩ := npZeros_ok hdz
      obtain ⟨hsn, hsz2⟩ := npZeros_ok hsz
      injection h with h
      subst hdz2 hsz2 hp1
      refine ⟨Or.inr hano, hpn, hdn, hsn, ?_⟩
      rw [if_pos hano, ← h]
      simp only [pySlice, if_neg (not_lt.mpr hsn)]
    · rw [if_neg hano] at h
      split at h
      · cases h
      · cases h
      · cases h
      rename_i hpulse hdz hsz
      cases hpulse

/-- The anodic phase built inside BiphasicPulse is a block of ones. -/
theorem monophasic_phase_anodic {pdur tsample : ℚ} {l : List ℚ}
    (h : MonophasicPulse "anodic" pdur tsample 0 (some pdur) = .ok l) :
    0 ≤ nsamp pdur tsample ∧ l = List.replicate (nsamp pdur tsample).toNat 1 := by
  obtain ⟨-, -, hpn, -, -, hl⟩ := monophasic_ok h
  refine ⟨hpn, ?_⟩
  rw [hl]
  simp only [nsamp_zero, Option.getD_some, Int.toNat_zero, List.replicate_zero,
    List.nil_append, if_pos rfl]
  exact List.take_left' (by simp)

/-- The cathodic phase built inside BiphasicPulse is a block of minus
ones. -/
theorem monophasic_phase_cathodic {pdur tsample : ℚ} {l : List ℚ}
    (h : MonophasicPulse "cathodic" pdur tsample 0 (some pdur) = .ok l) :
    0 ≤ nsamp pdur tsample ∧ l = List.replicate (nsamp pdur tsample).toNat (-1) := by
  obtain ⟨-, -, hpn, -, -, hl⟩ := monophasic_ok h
  refine ⟨hpn, ?_⟩
  rw [hl]
  have hne : ("cathodic" : String) ≠ "anodic" := by decide
  simp only [nsamp_zero, Option.getD_some, Int.toNat_zero, List.replicate_zero,
    List.nil_append, if_neg hne]
  exact List.take_left' (by simp)

/-- Full characterization of a successful BiphasicPulse construction:
positive sampling step, recognized ordering token, nonnegative phase
and gap sample counts, and the data given as phase, gap, phase. -/
theorem biphasic_ok {ptype : String} {pdur tsample interphase_dur : ℚ}
    {l : List ℚ}
    (h : BiphasicPulse ptype pdur tsample interphase_dur = .ok l) :
    ¬ tsample ≤ 0 ∧ (ptype = "cathodicfirst" ∨ ptype = "anodicfirst") ∧
    0 ≤ nsamp pdur tsample ∧ 0 ≤ nsamp interphase_dur tsample ∧
    l = (if ptype = "cathodicfirst"
         then List.replicate (nsamp pdur tsample).toNat (-1 : ℚ) ++
              List.replicate (nsamp interphase_dur tsample).toNat 0 ++
              List.replicate (nsamp pdur tsample).toNat 1
         else List.replicate (nsamp pdur tsample).toNat (1 : ℚ) ++
              List.replicate (nsamp interphase_dur tsample).toNat 0 ++
              List.replicate (nsamp pdur tsample).toNat (-1)) := by
  unfold BiphasicPulse at h
  split at h
  · cases h
  rename_i hts
  refine ⟨hts, ?_⟩
  split at h
  · cases h
  · cases h
  · cases h
  rename_i onP offP gap hon hoff hgap
  obtain ⟨hpn, honL⟩ := monophasic_phase_anodic hon
  obtain ⟨-, hoffL⟩ := monophasic_phase_cathodic hoff
  obtain ⟨hgn, hgapL⟩ := npZeros_ok hgap
  subst honL hoffL hgapL
  by_cases hcf : ptype = "cathodicfirst"
  · rw [if_pos hcf] at h
    injection h with h
    exact ⟨Or.inl hcf, hpn, hgn, by rw [if_pos hcf, ← h]⟩
  · rw [if_neg hcf] at h
    by_cases haf : ptype = "anodicfirst"
    · rw [if_pos haf] at h
      injection h with h
      exact ⟨Or.inr haf, hpn, hgn, by rw [if_neg hcf, ← h]⟩
    · rw [if_neg haf] at h
      cases h

/-- C3: for every BiphasicPulse with a recognized ptype and
tsample > 0, the two non-zero phase sub-sequences have equal sample
count round(pdur/tsample) and opposite sign (one all plus one, one all
minus one), the sum over all output samples is exactly 0, and the
total output length is 2 * round(pdur/tsample) +
round(interphase_dur/tsample). -/
theorem biphasicPulse_charge_balance (ptype : String)
    (pdur tsample interphase_dur : ℚ) (l : List ℚ) (ht : 0 < tsample)
    (h : BiphasicPulse ptype pdur tsample interphase_dur = .ok l) :
    l.sum = 0 ∧
    (l.length : ℤ) = 2 * nsamp pdur tsample + nsamp interphase_dur tsample ∧
    (ptype = "cathodicfirst" ∧
       l = List.replicate (nsamp pdur tsample).toNat (-1 : ℚ) ++
           List.replicate (nsamp interphase_dur tsample).toNat 0 ++
           List.replicate (nsamp pdur tsample).toNat 1 ∨
     ptype = "anodicfirst" ∧
       l = List.replicate (nsamp pdur tsample).toNat (1 : ℚ) ++
           List.replicate (nsamp interphase_dur tsample).toNat 0 ++
           List.replicate (nsamp pdur tsample).toNat (-1)) := by
  obtain ⟨-, hty, hpn, hgn, hl⟩ := biphasic_ok h
  have hp := Int.toNat_of_nonneg hpn
  have hg := Int.toNat_of_nonneg hgn
  rcases hty with hcf | haf
  · rw [hl, if_pos hcf]
    refine ⟨?_, ?_, Or.inl ⟨hcf, rfl⟩⟩
    · simp [List.sum_append, List.sum_replicate, nsmul_eq_mul]
    · simp only [List.length_append, List.length_replicate]
      push_cast
      omega
  · have hne : ptype ≠ "cathodicfirst" := by rw [haf]; decide
    rw [hl, if_neg hne]
    refine ⟨?_, ?_, Or.inr ⟨haf, rfl⟩⟩
    · simp [List.sum_append, List.sum_replicate, nsmul_eq_mul]
    · simp only [List.length_append, List.length_replicate]
      push_cast
      omega

/-- Witness for C3 at ptype cathodicfirst, pdur 2 ms, tsample 1 ms,
interphase 1 ms. -/
theorem biphasicPulse_charge_balance_witness :
    (0 : ℚ) < 1 / 1000 ∧
    BiphasicPulse "cathodicfirst" (2 / 1000) (1 / 1000) (1 / 1000) =
      .ok [-1, -1, 0, 1, 1] ∧
    (([-1, -1, 0, 1, 1] : List ℚ).sum = 0 ∧
     (([-1, -1, 0, 1, 1] : List ℚ).length : ℤ) =
       2 * nsamp (2 / 1000) (1 / 1000) + nsamp (1 / 1000) (1 / 1000) ∧
     (("cathodicfirst" : String) = "cathodicfirst" ∧
        ([-1, -1, 0, 1, 1] : List ℚ) =
          List.replicate (nsamp (2 / 1000) (1 / 1000)).toNat (-1 : ℚ) ++
          List.replicate (nsamp (1 / 1000) (1 / 1000)).toNat 0 ++
          List.replicate (nsamp (2 / 1000) (1 / 1000)).toNat 1 ∨
      ("cathodicfirst" : String) = "anodicfirst" ∧
        ([-1, -1, 0, 1, 1] : List ℚ) =
          List.replicate (nsamp (2 / 1000) (1 / 1000)).toNat (1 : ℚ) ++
          List.replicate (nsamp (1 / 1000) (1 / 1000)).toNat 0 ++
          List.replicate (nsamp (2 / 1000) (1 / 1000)).toNat (-1))) :=
  ⟨by norm_num, by decide,
   biphasicPulse_charge_balance "cathodicfirst" (2 / 1000) (1 / 1000)
     (1 / 1000) [-1, -1, 0, 1, 1] (by norm_num) (by decide)⟩

/-- C7: for every MonophasicPulse with recognized ptype and
tsample > 0, the output has length exactly
stim_samples = round(stim_dur/tsample) (stim_dur defaulting to
pdur + delay_dur), and equals the buffer of delay zeros, signed ones
and trailing zeros truncated to stim_samples, even when
delay + phase exceeds stim_samples. -/
theorem monophasicPulse_length_truncation (ptype : String)
    (pdur tsample delay_dur : ℚ) (stimDur : Option ℚ) (l : List ℚ)
    (ht : 0 < tsample)
    (h : MonophasicPulse ptype pdur tsample delay_dur stimDur = .ok l) :
    (l.length : ℤ) = nsamp (stimDur.getD (pdur + delay_dur)) tsample ∧
    l = (List.replicate (nsamp delay_dur tsample).toNat 0 ++
         (if ptype = "anodic"
          then List.replicate (nsamp pdur tsample).toNat (1 : ℚ)
          else List.replicate (nsamp pdur tsample).toNat (-1 : ℚ)) ++
         List.replicate (nsamp (stimDur.getD (pdur + delay_dur)) tsample).toNat 0).take
        (nsamp (stimDur.getD (pdur + delay_dur)) tsample).toNat := by
  obtain ⟨-, -, hpn, hdn, hsn, hl⟩ := monophasic_ok h
  refine ⟨?_, hl⟩
  rw [hl]
  simp only [List.length_take, List.length_append, List.length_replicate,
    apply_ite List.length]
  have hs := Int.toNat_of_nonneg hsn
  omega

/-- Witness for C7 at a truncating input: anodic phase of 5 ms at a
1 ms step with a 2 ms stimulus window keeps only 2 of the 5 ones. -/
theorem monophasicPulse_length_truncation_witness :
    (0 : ℚ) < 1 / 1000 ∧
    MonophasicPulse "anodic" (5 / 1000) (1 / 1000) 0 (some (2 / 1000)) =
      .ok [1, 1] ∧
    (([1, 1] : List ℚ).length : ℤ) =
      nsamp ((some ((2 : ℚ) / 1000)).getD (5 / 1000 + 0)) (1 / 1000) :=
  ⟨by norm_num, by decide,
   (monophasicPulse_length_truncation "anodic" (5 / 1000) (1 / 1000) 0
     (some (2 / 1000)) [1, 1] (by norm_num) (by decide)).1⟩

/-- C1: every successful PulseTrain construction with tsample > 0 (and
a nonnegative duration, the only durations the length contract speaks
about) returns exactly round(dur/tsample) samples, for all values of
freq, amp, delay, pulse_dur, interphase_dur, pulsetype and pulseorder,
including the degenerate near-zero freq or amp case and the cases
where the assembled buffer over- or under-shoots the target length. -/
theorem pulseTrain_length_eq
    (tsample freq amp dur delay pulse_dur interphase_dur : ℚ)
    (pulsetype pulseorder : String) (l : List ℚ)
    (ht : 0 < tsample) (hd : 0 ≤ dur)
    (h : PulseTrain tsample freq amp dur delay pulse_dur interphase_dur
           pulsetype pulseorder = .ok l) :
    (l.length : ℤ) = nsamp dur tsample := by
  have hs : 0 ≤ nsamp dur tsample := nsamp_nonneg hd ht
  unfold PulseTrain at h
  rw [if_neg (not_le.mpr ht)] at h
  dsimp only [] at h
  by_cases hc : npIsCloseZero freq ∨ npIsCloseZero amp
  · rw [if_pos hc] at h
    obtain ⟨-, hl⟩ := npZeros_ok h
    rw [hl]
    simp [Int.toNat_of_nonneg hs]
  · rw [if_neg hc] at h
    split at h
    · cases h
    rename_i hdel
    split at h
    · cases h
    rename_i bip hbip
    split at h
    · cases h
    rename_i hps
    split at h
    · cases h
    rename_i hgs
    split at h
    · cases h
    rename_i tr htr
    injection h with h
    rw [← h]
    by_cases hlt : (tr.length : ℤ) < nsamp dur tsample
    · rw [if_pos hlt]
      simp only [pySlice, if_neg (not_lt.mpr hs), List.length_take,
        List.length_append, List.length_replicate]
      omega
    · rw [if_neg hlt]
      simp only [pySlice, if_neg (not_lt.mpr hs), List.length_take]
      omega

/-- Witness for C1: a 20 Hz train over 10 ms at a 1 ms step has
round(0.01/0.001) = 10 samples (here the 0.45 ms phases round to zero
samples, so the result is all zeros). -/
theorem pulseTrain_length_eq_witness :
    (0 : ℚ) < 1 / 1000 ∧ (0 : ℚ) ≤ 1 / 100 ∧
    PulseTrain (1 / 1000) 20 20 (1 / 100) 0 (45 / 100000) (45 / 100000)
      "cathodicfirst" "pulsefirst" = .ok (List.replicate 10 0) ∧
    (((List.replicate 10 (0 : ℚ)).length : ℤ) = nsamp (1 / 100) (1 / 1000)) :=
  ⟨by norm_num, by norm_num, by decide,
   pulseTrain_length_eq (1 / 1000) 20 20 (1 / 100) 0 (45 / 100000)
     (45 / 100000) "cathodicfirst" "pulsefirst" (List.replicate 10 0)
     (by norm_num) (by norm_num) (by decide)⟩

/-- C2: whenever PulseTrain (with freq and amp not close to 0 and a
nonnegative delay sample count) finds that one amplitude-scaled
biphasic pulse plus the onset delay does not fit inside the
round(1/freq/tsample)-sample period, it raises the
pulse-and-delay-must-fit error and yields no waveform. -/
theorem pulseTrain_gap_negative_raises
    (tsample freq amp dur delay pulse_dur interphase_dur : ℚ)
    (pulsetype pulseorder : String) (bip : List ℚ)
    (ht : 0 < tsample)
    (hf : ¬ npIsCloseZero freq) (ha : ¬ npIsCloseZero amp)
    (hdel : ¬ nsamp delay tsample < 0)
    (hbip : BiphasicPulse pulsetype pulse_dur tsample interphase_dur = .ok bip)
    (hgap : nsamp (1 / freq) tsample -
              (nsamp delay tsample + (bip.length : ℤ)) < 0) :
    PulseTrain tsample freq amp dur delay pulse_dur interphase_dur
      pulsetype pulseorder =
      .error "Pulse and delay must fit within 1/freq interval." := by
  unfold PulseTrain
  rw [if_neg (not_le.mpr ht)]
  dsimp only []
  rw [if_neg (by rintro (h | h) <;> [exact hf h; exact ha h]),
    if_neg hdel, hbip]
  dsimp only []
  rw [if_neg (by simp), if_pos (by simpa using hgap)]

/-- Witness for C2 at the boundary input of the claim: tsample 1 ms,
freq 500 Hz, pulse_dur 2 ms, zero interphase gap and zero delay; the
4-sample biphasic pulse cannot fit the 2-sample period. -/
theorem pulseTrain_gap_negative_raises_witness :
    (0 : ℚ) < 1 / 1000 ∧ ¬ npIsCloseZero 500 ∧ ¬ npIsCloseZero 20 ∧
    ¬ nsamp 0 (1 / 1000) < 0 ∧
    BiphasicPulse "cathodicfirst" (2 / 1000) (1 / 1000) 0 =
      .ok [-1, -1, 1, 1] ∧
    nsamp (1 / 500) (1 / 1000) -
      (nsamp 0 (1 / 1000) + (([-1, -1, 1, 1] : List ℚ).length : ℤ)) < 0 ∧
    PulseTrain (1 / 1000) 500 20 1 0 (2 / 1000) 0 "cathodicfirst"
      "pulsefirst" =
      .error "Pulse and delay must fit within 1/freq interval." :=
  ⟨by norm_num, by decide, by decide, by decide, by decide, by decide,
   pulseTrain_gap_negative_raises (1 / 1000) 500 20 1 0 (2 / 1000) 0
     "cathodicfirst" "pulsefirst" [-1, -1, 1, 1] (by norm_num) (by decide)
     (by decide) (by decide) (by decide) (by decide)⟩

/-- C6: if freq or amp is close to 0 (within the numpy tolerance),
PulseTrain returns an all-zero waveform of exactly round(dur/tsample)
samples without raising and without validating the remaining
parameters; in particular the delay may be negative (and pulse_dur,
interphase_dur, pulsetype, pulseorder arbitrary) without an error. -/
theorem pulseTrain_degenerate_zero
    (tsample freq amp dur delay pulse_dur interphase_dur : ℚ)
    (pulsetype pulseorder : String)
    (ht : 0 < tsample) (hd : 0 ≤ dur)
    (hc : npIsCloseZero freq ∨ npIsCloseZero amp) :
    PulseTrain tsample freq amp dur delay pulse_dur interphase_dur
      pulsetype pulseorder =
      .ok (List.replicate (nsamp dur tsample).toNat 0) ∧
    (((nsamp dur tsample).toNat : ℤ) = nsamp dur tsample) := by
  have hs : 0 ≤ nsamp dur tsample := nsamp_nonneg hd ht
  constructor
  · unfold PulseTrain
    rw [if_neg (not_le.mpr ht)]
    dsimp only []
    rw [if_pos hc]
    unfold npZeros
    rw [if_neg (not_lt.mpr hs)]
  · exact Int.toNat_of_nonneg hs

/-- Witness for C6: zero frequency with a negative delay of one second
still yields ten zero samples over a 10 ms window at a 1 ms step. -/
theorem pulseTrain_degenerate_zero_witness :
    (0 : ℚ) < 1 / 1000 ∧ (0 : ℚ) ≤ 1 / 100 ∧
    (npIsCloseZero 0 ∨ npIsCloseZero (5 : ℚ)) ∧
    (PulseTrain (1 / 1000) 0 5 (1 / 100) (-1) (45 / 100000) 0 "bogus"
       "bogus" = .ok (List.replicate (nsamp (1 / 100) (1 / 1000)).toNat 0) ∧
     (((nsamp (1 / 100) (1 / 1000)).toNat : ℤ) = nsamp (1 / 100) (1 / 1000))) :=
  ⟨by norm_num, by norm_num, Or.inl (by decide),
   pulseTrain_degenerate_zero (1 / 1000) 0 5 (1 / 100) (-1) (45 / 100000) 0
     "bogus" "bogus" (by norm_num) (by norm_num) (Or.inl (by decide))⟩

/-- One period of the C8 scenario train: the amplitude-20
cathodic-first biphasic pulse (4 + 4 + 4 samples) followed by 488 gap
zeros, 500 samples in all. -/
def envC8 : List ℚ :=
  List.replicate 4 (-20) ++ List.replicate 4 0 ++ List.replicate 4 20 ++
    List.replicate 488 0

set_option maxRecDepth 400000 in
/-- C8: the call PulseTrain(tsample=1e-4, freq=20, amp=20, dur=0.1,
pulse_dur=4.5e-4, interphase_dur=4.5e-4) returns exactly 1000 samples
consisting of exactly two amplitude-20 biphasic pulse envelopes, all
remaining samples zero (16 non-zero samples in total). -/
theorem pulseTrain_scenario_two_envelopes :
    PulseTrain (1 / 10000) 20 20 (1 / 10) 0 (45 / 100000) (45 / 100000)
      "cathodicfirst" "pulsefirst" = .ok (envC8 ++ envC8) ∧
    (envC8 ++ envC8).length = 1000 ∧
    ((envC8 ++ envC8).filter (fun x => x ≠ 0)).length = 16 := by
  refine ⟨by decide, by decide, by decide⟩

set_option maxRecDepth 4000 in
/-- C10: a valid, non-raising PulseTrain call whose final truncation
cuts into the last pulse: with pulseorder gapfirst, tsample 0.1 s,
freq 10/3 Hz, dur 1.1 s, the four assembled 3-sample envelopes hold 12
samples, the output keeps round(1.1/0.1) = 11, and the severed
trailing +20 sample leaves a non-zero total sum of -20 even though the
constituent biphasic pulse is charge-balanced. -/
theorem pulseTrain_truncation_unbalanced :
    (PulseTrain (1 / 10) (10 / 3) 20 (11 / 10) 0 (1 / 10) 0 "cathodicfirst"
        "gapfirst").map List.sum = .ok (-20) ∧
    (PulseTrain (1 / 10) (10 / 3) 20 (11 / 10) 0 (1 / 10) 0 "cathodicfirst"
        "gapfirst").map List.length = .ok 11 ∧
    BiphasicPulse "cathodicfirst" (1 / 10) (1 / 10) 0 = .ok [-1, 1] ∧
    ([-1, 1] : List ℚ).sum = 0 ∧ ((-20 : ℚ) ≠ 0) := by
  refine ⟨by decide, by decide, by decide, by decide, by decide⟩

/-- The dict loop never writes to a slot that none of its entries
resolves to. -/
theorem parseDictLoop_unmatched_getD (implant : ElectrodeArray) :
    ∀ (entries : List (String × Nat)) (pt : List Nat) (s : Store)
      (pt' : List Nat) (s' : Store),
      parseDictLoop implant entries pt s = .ok (pt', s') →
      ∀ i, (∀ e ∈ entries, implant.get_index e.1 ≠ some i) →
        pt'.getD i 0 = pt.getD i 0 := by
  intro entries
  induction entries with
  | nil =>
    intro pt s pt' s' h i hi
    unfold parseDictLoop at h
    injection h with h
    injection h with h1 h2
    rw [← h1]
  | cons e rest ih =>
    intro pt s pt' s' h i hi
    obtain ⟨key, r⟩ := e
    unfold parseDictLoop at h
    cases hidx : implant.get_index key with
    | none => rw [hidx] at h; cases h
    | some idx =>
      rw [hidx] at h
      have hne : idx ≠ i := by
        intro he
        exact hi (key, r) (by simp) (he ▸ hidx)
      have hrec := ih _ _ _ _ h i (fun e' he' => hi e' (by simp [he']))
      rw [hrec]
      simp [List.getD, List.get?_eq_getElem?, List.getElem?_set_ne hne]

/-- The dict loop only allocates: objects present before it runs keep
their reference and value. -/
theorem parseDictLoop_preserves (implant : ElectrodeArray) :
    ∀ (entries : List (String × Nat)) (pt : List Nat) (s : Store)
      (pt' : List Nat) (s' : Store),
      parseDictLoop implant entries pt s = .ok (pt', s') →
      s.objs.length ≤ s'.objs.length ∧
      ∀ r, r < s.objs.length → s'.get r = s.get r := by
  intro entries
  induction entries with
  | nil =>
    intro pt s pt' s' h
    unfold parseDictLoop at h
    injection h with h
    injection h with h1 h2
    rw [← h2]
    exact ⟨Nat.le_refl _, fun r _ => rfl⟩
  | cons e rest ih =>
    intro pt s pt' s' h
    obtain ⟨key, r⟩ := e
    unfold parseDictLoop at h
    cases hidx : implant.get_index key with
    | none => rw [hidx] at h; cases h
    | some idx =>
      rw [hidx] at h
      obtain ⟨hlen, hpres⟩ := ih _ _ _ _ h
      simp only [Store.alloc, List.length_append, List.length_cons,
        List.length_nil] at hlen
      refine ⟨by omega, fun q hq => ?_⟩
      rw [hpres q (by simp [Store.alloc]; omega)]
      simp only [Store.alloc, Store.get]
      simp [List.getD, List.get?_eq_getElem?, List.getElem?_append, hq]

/-- C4 (amended): in the name-to-waveform mapping case, every
unmatched electrode slot holds the all-zero waveform shaped like the
first supplied entry (same sampling step and sample count), and that
zero waveform is one freshly allocated object whose reference is
shared by all unmatched slots: its reference equals the pre-call store
size, the same value for every unmatched index. -/
theorem parse_dict_unmatched_zero_shared
    (implant : ElectrodeArray) (k0 : String) (r0 : Nat)
    (rest : List (String × Nat)) (s : Store) (pt : List Nat) (s' : Store)
    (h : parse_pulse_trains (.dictOf ((k0, r0) :: rest)) implant s =
           .ok (pt, s'))
    (i : Nat) (hi : i < implant.num_electrodes)
    (hun : ∀ e ∈ (k0, r0) :: rest, implant.get_index e.1 ≠ some i) :
    pt.getD i 0 = s.objs.length ∧
    s'.get (pt.getD i 0) =
      ⟨(s.get r0).tsample, List.replicate (s.get r0).data.length 0⟩ := by
  unfold parse_pulse_trains at h
  dsimp only [] at h
  have h1 := parseDictLoop_unmatched_getD implant _ _ _ _ _ h i hun
  simp only [Store.alloc, List.getD, List.get?_eq_getElem?,
    List.getElem?_replicate, hi, if_true, Option.getD_some] at h1
  simp only [List.getD, List.get?_eq_getElem?]
  refine ⟨h1, ?_⟩
  obtain ⟨hlen, hpres⟩ := parseDictLoop_preserves implant _ _ _ _ _ h
  rw [h1, hpres s.objs.length (by simp [Store.alloc])]
  simp [Store.alloc, Store.get, List.getD, List.get?_eq_getElem?,
    List.getElem?_append]

/-- Witness for C4 (amended) on a three-electrode array with one
matched entry: the two unmatched slots both hold reference 1, the
shared fresh zero waveform. -/
theorem parse_dict_unmatched_zero_shared_witness :
    (parse_pulse_trains (.dictOf [("A", 0)]) ⟨["A", "B", "C"]⟩
        ⟨[⟨1, [5]⟩]⟩ = .ok ([2, 1, 1], ⟨[⟨1, [5]⟩, ⟨1, [0]⟩, ⟨1, [5]⟩]⟩)) ∧
    (1 < (⟨["A", "B", "C"]⟩ : ElectrodeArray).num_electrodes) ∧
    (([2, 1, 1] : List Nat).getD 1 0 = 1 ∧
     (⟨[⟨1, [5]⟩, ⟨1, [0]⟩, ⟨1, [5]⟩]⟩ : Store).get
       (([2, 1, 1] : List Nat).getD 1 0) = ⟨1, [0]⟩) :=
  ⟨by decide, by decide,
   parse_dict_unmatched_zero_shared ⟨["A", "B", "C"]⟩ "A" 0 [] ⟨[⟨1, [5]⟩]⟩
     [2, 1, 1] ⟨[⟨1, [5]⟩, ⟨1, [0]⟩, ⟨1, [5]⟩]⟩ (by decide) 1 (by decide)
     (by decide)⟩

/-- C4 counterexample: the code builds the zero fills as one shared
object ([pt_zero] * n), so with electrodes A, B, C and only A supplied,
the returned entries for B and C are the same reference, and mutating
the object behind the entry of B changes what the entry of C reads —
refuting that mutating one returned entry never affects another. -/
theorem parse_dict_shared_zero_counterexample :
    (parse_pulse_trains (.dictOf [("A", 0)]) ⟨["A", "B", "C"]⟩
        ⟨[⟨1, [5]⟩]⟩ = .ok ([2, 1, 1], ⟨[⟨1, [5]⟩, ⟨1, [0]⟩, ⟨1, [5]⟩]⟩)) ∧
    (([2, 1, 1] : List Nat).getD 1 0 = ([2, 1, 1] : List Nat).getD 2 0) ∧
    ((⟨[⟨1, [5]⟩, ⟨1, [0]⟩, ⟨1, [5]⟩]⟩ : Store).put
        (([2, 1, 1] : List Nat).getD 1 0) ⟨1, [9]⟩).get
      (([2, 1, 1] : List Nat).getD 2 0) ≠
      (⟨[⟨1, [5]⟩, ⟨1, [0]⟩, ⟨1, [5]⟩]⟩ : Store).get
        (([2, 1, 1] : List Nat).getD 2 0) := by
  refine ⟨by decide, by decide, by decide⟩

/-- C5 (amended): the single-waveform branch succeeds exactly when the
electrode count is at most 1 — including count 0 — returning a
one-element list holding a fresh deep copy; only a count above 1 fails
with the cardinality error. -/
theorem parse_single_cardinality (implant : ElectrodeArray) (r : Nat)
    (s : Store) :
    (implant.num_electrodes ≤ 1 →
       parse_pulse_trains (.single r) implant s =
         .ok ([s.objs.length], ⟨s.objs ++ [s.get r]⟩)) ∧
    (1 < implant.num_electrodes →
       parse_pulse_trains (.single r) implant s =
         .error "More than 1 electrode given, use a list of pulse trains") := by
  constructor
  · intro hle
    unfold parse_pulse_trains
    dsimp only []
    rw [if_neg (by omega)]
    rfl
  · intro hgt
    unfold parse_pulse_trains
    dsimp only []
    rw [if_pos hgt]

/-- Witness for C5 (amended), both arms: a zero-electrode array
accepts a single waveform, a two-electrode array rejects it. -/
theorem parse_single_cardinality_witness :
    ((⟨[]⟩ : ElectrodeArray).num_electrodes ≤ 1 ∧
     parse_pulse_trains (.single 0) ⟨[]⟩ ⟨[⟨1, [5]⟩]⟩ =
       .ok ([1], ⟨[⟨1, [5]⟩, ⟨1, [5]⟩]⟩)) ∧
    (1 < (⟨["A", "B"]⟩ : ElectrodeArray).num_electrodes ∧
     parse_pulse_trains (.single 0) ⟨["A", "B"]⟩ ⟨[⟨1, [5]⟩]⟩ =
       .error "More than 1 electrode given, use a list of pulse trains") :=
  ⟨⟨by decide, (parse_single_cardinality ⟨[]⟩ 0 ⟨[⟨1, [5]⟩]⟩).1 (by decide)⟩,
   ⟨by decide, (parse_single_cardinality ⟨["A", "B"]⟩ 0 ⟨[⟨1, [5]⟩]⟩).2
     (by decide)⟩⟩

/-- C5 counterexample: with zero electrodes the code does not raise —
the guard only fires for more than one electrode — so a single
waveform is accepted and one copy returned, refuting that every count
different from 1, including 0, fails. -/
theorem parse_single_zero_electrodes_counterexample :
    parse_pulse_trains (.single 0) ⟨[]⟩ ⟨[⟨1, [5]⟩]⟩ =
      .ok ([1], ⟨[⟨1, [5]⟩, ⟨1, [5]⟩]⟩) := by decide

/-- A map whose function is constant on the members of the list. -/
theorem map_const_of_mem {α : Type} (l : List α) (f : α → ℚ) (c : ℚ)
    (h : ∀ x ∈ l, f x = c) : l.map f = List.replicate l.length c := by
  induction l with
  | nil => rfl
  | cons x xs ih =>
    simp only [List.map_cons, List.length_cons, List.replicate_succ]
    rw [h x (by simp), ih (fun y hy => h y (by simp [hy]))]

theorem foldl_min_replicate (m : Nat) (c : ℚ) :
    (List.replicate m c).foldl min c = c := by
  induction m with
  | zero => rfl
  | succ k ih => simpa only [List.replicate_succ, List.foldl_cons, min_self] using ih

theorem foldl_max_replicate (m : Nat) (c : ℚ) :
    (List.replicate m c).foldl max c = c := by
  induction m with
  | zero => rfl
  | succ k ih => simpa only [List.replicate_succ, List.foldl_cons, max_self] using ih

theorem npMin_replicate (n : Nat) (c : ℚ) (hn : 1 ≤ n) :
    npMin (List.replicate n c) = c := by
  cases n with
  | zero => omega
  | succ m => simpa only [List.replicate_succ, npMin] using foldl_min_replicate m c

theorem npMax_replicate (n : Nat) (c : ℚ) (hn : 1 ≤ n) :
    npMax (List.replicate n c) = c := by
  cases n with
  | zero => omega
  | succ m => simpa only [List.replicate_succ, npMax] using foldl_max_replicate m c

/-- Weighted average of a uniform half-intensity image: every
electrode magnitude is one half, whatever its positive weights. -/
theorem magnitude_uniform_half (rf : List ℚ) (k : Nat) (hlen : rf.length = k)
    (hpos : 0 < rf.sum) :
    (List.zipWith (fun a b => a * b) rf (List.replicate k (1 / 2 : ℚ))).sum /
      rf.sum = 1 / 2 := by
  have hz : (List.zipWith (fun a b => a * b) rf
      (List.replicate k (1 / 2 : ℚ))).sum = rf.sum * (1 / 2) := by
    subst hlen
    clear hpos
    induction rf with
    | nil => simp
    | cons x xs ih =>
      simp only [List.length_cons, List.replicate_succ,
        List.zipWith_cons_cons, List.sum_cons]
      rw [ih]
      ring
  rw [hz, mul_comm, mul_div_assoc, div_self (ne_of_gt hpos), mul_one]

/-- mapExcept over a constant nonempty list: one shared outcome,
replicated on success and propagated on error. -/
theorem mapExcept_replicate (f : ℚ → Except String (List ℚ)) (a : ℚ)
    (n : Nat) (hn : 1 ≤ n) :
    mapExcept f (List.replicate n a) = (f a).map (List.replicate n) := by
  induction n with
  | zero => omega
  | succ m ih =>
    cases m with
    | zero =>
      cases hf : f a <;>
        simp [List.replicate_succ, mapExcept, hf, Except.map]
    | succ k =>
      have hih := ih (by omega)
      rw [List.replicate_succ, mapExcept, hih]
      cases hf : f a with
      | error e => simp [Except.map]
      | ok b => simp [Except.map, ← List.replicate_succ]

/-- C9: on a uniform all-0.5 intensity image with max_contrast on and
at least two electrodes with positive receptive-field weights, every
weighted-average magnitude is exactly 0.5, the min-max normalization
is skipped since min equals max, every magnitude maps to the midpoint
lo + (hi - lo)/2 of the target range, and all electrodes receive
identical pulse trains. -/
theorem image_uniform_midpoint (rfs : List (List ℚ)) (k : Nat) (lo hi : ℚ)
    (const_amp const_freq tsample dur pulsedur interphasedur : ℚ)
    (pulsetype : String)
    (h2 : 2 ≤ rfs.length) (hk : 1 ≤ k)
    (hlen : ∀ rf ∈ rfs, rf.length = k)
    (hpos : ∀ rf ∈ rfs, ∀ w ∈ rf, 0 < w) :
    electrodeMagnitudes rfs (List.replicate k (1 / 2)) =
      List.replicate rfs.length (1 / 2) ∧
    normalizeContrast true (List.replicate rfs.length (1 / 2)) =
      List.replicate rfs.length (1 / 2) ∧
    scaleToRange lo hi (List.replicate rfs.length (1 / 2)) =
      List.replicate rfs.length (lo + (hi - lo) / 2) ∧
    image2pulsetrain rfs (List.replicate k (1 / 2)) "amplitude" lo hi true
        const_amp const_freq tsample dur pulsedur interphasedur pulsetype =
      (PulseTrain tsample const_freq (lo + (hi - lo) / 2) dur 0 pulsedur
         interphasedur pulsetype "pulsefirst").map
        (List.replicate rfs.length) := by
  have hmag : electrodeMagnitudes rfs (List.replicate k (1 / 2)) =
      List.replicate rfs.length (1 / 2) := by
    unfold electrodeMagnitudes
    apply map_const_of_mem
    intro rf hrf
    refine magnitude_uniform_half rf k (hlen rf hrf) ?_
    refine List.sum_pos rf (hpos rf hrf) ?_
    intro hnil
    have := hlen rf hrf
    rw [hnil] at this
    simp at this
    omega
  have hnorm : normalizeContrast true (List.replicate rfs.length (1 / 2)) =
      List.replicate rfs.length (1 / 2) := by
    unfold normalizeContrast
    rw [if_neg]
    rintro ⟨-, hlt⟩
    rw [npMin_replicate _ _ (by omega), npMax_replicate _ _ (by omega)] at hlt
    exact lt_irrefl _ hlt
  have hscale : scaleToRange lo hi (List.replicate rfs.length (1 / 2)) =
      List.replicate rfs.length (lo + (hi - lo) / 2) := by
    unfold scaleToRange
    rw [List.map_replicate]
    congr 1
    ring
  refine ⟨hmag, hnorm, hscale, ?_⟩
  unfold image2pulsetrain
  rw [hmag, hnorm, hscale, mapExcept_replicate _ _ _ (by omega)]
  rw [if_pos rfl]

/-- Witness for C9 on two electrodes with weights [1, 2] and [3, 4]
over a uniform half image of two pixels, range [0, 50]: both
electrodes get the identical midpoint-amplitude train. -/
theorem image_uniform_midpoint_witness :
    2 ≤ ([[1, 2], [3, 4]] : List (List ℚ)).length ∧
    image2pulsetrain [[1, 2], [3, 4]] (List.replicate 2 (1 / 2)) "amplitude"
        0 50 true 20 20 (1 / 1000) (1 / 100) (45 / 100000) (45 / 100000)
        "cathodicfirst" =
      (PulseTrain (1 / 1000) 20 (0 + (50 - 0) / 2) (1 / 100) 0 (45 / 100000)
         (45 / 100000) "cathodicfirst" "pulsefirst").map
        (List.replicate ([[1, 2], [3, 4]] : List (List ℚ)).length) :=
  ⟨by decide,
   (image_uniform_midpoint [[1, 2], [3, 4]] 2 0 50 20 20 (1 / 1000) (1 / 100)
     (45 / 100000) (45 / 100000) "cathodicfirst" (by decide) (by decide)
     (by decide) (by decide)).2.2.2⟩

end Stimuli
